import Mathlib

set_option maxHeartbeats 1000000

/-!
Shallow embedding of the articy3 to RenPy code generator
(src/utils.py and src/converter.py), together with proofs about it.

Python strings are modeled as Lean `String`/`List Char`, Python dictionary
fields that a function tests for presence with `in` are modeled as `Option`
fields, Python exceptions as `Except String`, and Python `None` results as
`Option`.  Loops whose bound is not structural carry an explicit fuel
argument whose value at every call site is an exact upper bound on the
number of iterations.
-/

namespace ArticyRenpy

/-! ### Python string primitives -/

/-- Python `str.strip` default whitespace test (ASCII part). -/
def isPySpace (c : Char) : Bool :=
  c = ' ' || c = '\t' || c = '\n' || c = '\r' || c = '\x0b' || c = '\x0c'

/-- Python `str.strip` on a character list. -/
def stripL (l : List Char) : List Char :=
  ((l.dropWhile isPySpace).reverse.dropWhile isPySpace).reverse

/-- Python `str.strip`. -/
def pyStrip (s : String) : String := String.mk (stripL s.data)

/-- Prefix test on character lists. -/
def isPre : List Char → List Char → Bool
  | [], _ => true
  | _ :: _, [] => false
  | a :: as, b :: bs => a = b && isPre as bs

/-- Whether `pat` occurs as a contiguous substring (Python `pat in s`). -/
def containsSub (pat : List Char) : List Char → Bool
  | [] => pat.isEmpty
  | c :: rest => isPre pat (c :: rest) || containsSub pat rest

/-- Python `str.replace` (all non-overlapping occurrences, left to right) for a
non-empty pattern `p :: ps`.  The `Nat` argument is fuel; every recursive call
consumes at least one input character, so fuel `s.length` is always enough
(and on fuel `0` the rest of the input is returned unchanged). -/
def replaceAllCore (p : Char) (ps repl : List Char) : Nat → List Char → List Char
  | _, [] => []
  | 0, s => s
  | fuel+1, c :: rest =>
    if isPre (p :: ps) (c :: rest) then
      repl ++ replaceAllCore p ps repl fuel (rest.drop ps.length)
    else
      c :: replaceAllCore p ps repl fuel rest

/-- Python `s.replace(pat, repl)` on a character list.  All call sites in the
source use a non-empty literal pattern, so the empty-pattern behavior of
Python (interleaving `repl` everywhere) is not modeled. -/
def pyReplaceL (pat repl : String) (s : List Char) : List Char :=
  match pat.data with
  | [] => s
  | p :: ps => replaceAllCore p ps repl.data s.length s

/-- Python `str.split(sep)` for a one-character separator: keeps empty
segments, and splitting the empty string yields one empty segment. -/
def splitChar (sep : Char) : List Char → List (List Char)
  | [] => [[]]
  | c :: rest =>
    let r := splitChar sep rest
    if c = sep then [] :: r
    else
      match r with
      | [] => [[c]]
      | h :: t => (c :: h) :: t

/-- Index of the first occurrence of `pat` (helper for Python `str.find`). -/
def pyFindAux (pat : List Char) : List Char → Option Nat
  | [] => if pat.isEmpty then some 0 else none
  | c :: rest => if isPre pat (c :: rest) then some 0 else (pyFindAux pat rest).map (· + 1)

/-- Python `s.find(pat, start)`; `none` plays the role of Python `-1`. -/
def pyFind (s pat : List Char) (start : Nat) : Option Nat :=
  (pyFindAux pat (s.drop start)).map (· + start)

/-- Python slice `s[a:b]` for `0 ≤ a`. -/
def pySlice (s : List Char) (a b : Nat) : List Char := (s.drop a).take (b - a)

/-- Decimal value of a digit list (most significant first). -/
def decVal (l : List Char) : Nat := l.foldl (fun a c => 10 * a + (c.toNat - 48)) 0

/-- Value of a non-empty list of decimal digits, `none` otherwise. -/
def decDigitsVal (l : List Char) : Option Nat :=
  if l ≠ [] ∧ l.all Char.isDigit then some (decVal l) else none

/-- Python `int(s)`: optional surrounding whitespace, optional sign, decimal
digits.  Pythons digit-group underscores and non-ASCII digits are not
modeled (no input produced by the converter uses them). -/
def pyInt (s : String) : Option Int :=
  match stripL s.data with
  | '-' :: ds => (decDigitsVal ds).map (fun n => -(n : Int))
  | '+' :: ds => (decDigitsVal ds).map (fun n => (n : Int))
  | ds => (decDigitsVal ds).map (fun n => (n : Int))

/-- One hexadecimal digit. -/
def hexDigitVal (c : Char) : Option Nat :=
  if c.isDigit then some (c.toNat - 48)
  else if 'a' ≤ c ∧ c ≤ 'f' then some (c.toNat - 87)
  else if 'A' ≤ c ∧ c ≤ 'F' then some (c.toNat - 55)
  else none

/-- One binary digit. -/
def binDigitVal (c : Char) : Option Nat :=
  if c = '0' then some 0 else if c = '1' then some 1 else none

/-- One octal digit. -/
def octDigitVal (c : Char) : Option Nat :=
  if '0' ≤ c ∧ c ≤ '7' then some (c.toNat - 48) else none

/-- Value of a non-empty digit list in base `b`, `none` on a bad digit. -/
def baseVal (b : Nat) (digitVal : Char → Option Nat) (l : List Char) : Option Nat :=
  if l.isEmpty then none
  else l.foldlM (fun a c => (digitVal c).map (fun d => b * a + d)) 0

/-- Python `int(s, 0)` after sign removal: `0x`/`0b`/`0o` prefixes select the
base, a bare zero (possibly repeated) is `0`, and a decimal number must not
have a leading zero. -/
def pyIntBase0Core (l : List Char) : Option Nat :=
  match l with
  | '0' :: x :: rest =>
    if x = 'x' ∨ x = 'X' then baseVal 16 hexDigitVal rest
    else if x = 'b' ∨ x = 'B' then baseVal 2 binDigitVal rest
    else if x = 'o' ∨ x = 'O' then baseVal 8 octDigitVal rest
    else if ('0' :: x :: rest).all (· = '0') then some 0
    else none
  | ['0'] => some 0
  | ds => if ds ≠ [] ∧ ds.all Char.isDigit then some (decVal ds) else none

/-- Python `int(s, 0)` (automatic base detection). -/
def pyIntBase0 (s : String) : Option Int :=
  match stripL s.data with
  | '-' :: ds => (pyIntBase0Core ds).map (fun n => -(n : Int))
  | '+' :: ds => (pyIntBase0Core ds).map (fun n => (n : Int))
  | ds => (pyIntBase0Core ds).map (fun n => (n : Int))

/-! ### Data model

An articy model (node) as far as the embedded functions inspect it.  Fields
whose presence the Python code tests with `in` are `Option`; fields it
accesses unconditionally are plain. -/

structure Connection where
  Target : String
  TargetPin : String
  Label : String
deriving DecidableEq, Repr

structure Pin where
  Id : String
  Owner : String
  Text : String
  Connections : Option (List Connection)
deriving DecidableEq, Repr

structure Properties where
  Id : String
  Text : String
  MenuText : Option String
  StageDirections : Option String
  InputPins : Option (List Pin)
  OutputPins : Option (List Pin)
deriving DecidableEq, Repr

/-- An articy model; `Type_` stands for the JSON field `Type` (a Lean keyword). -/
structure Model where
  Type_ : String
  Properties : Properties
deriving DecidableEq, Repr

/-! ### utils.py -/

/-- Embeds `utils.get_model_with_id`. -/
def get_model_with_id (model_id : String) (models : List Model) : Option Model :=
  models.find? (fun m => m.Properties.Id == model_id)

/-- Embeds `utils.get_input_pins_of_model`. -/
def get_input_pins_of_model (model : Model) : List Pin :=
  match model.Properties.InputPins with
  | none => []
  | some pins => pins

/-- Embeds `utils.get_output_pins_of_model`. -/
def get_output_pins_of_model (model : Model) : List Pin :=
  match model.Properties.OutputPins with
  | none => []
  | some pins => pins

/-- Embeds `utils.get_input_pin_with_id` with `model=None`: scans every models
`InputPins` list; a model without that key makes Python raise `KeyError`. -/
def get_input_pin_with_id (input_pin_id : String) (models : List Model) :
    Except String (Option Pin) :=
  match models with
  | [] => .ok none
  | m :: rest =>
    match m.Properties.InputPins with
    | none => .error "KeyError: InputPins"
    | some pins =>
      match pins.find? (fun p => p.Id == input_pin_id) with
      | some p => .ok (some p)
      | none => get_input_pin_with_id input_pin_id rest

/-- Embeds `utils.get_input_pin_with_id` with an explicit `model` argument. -/
def get_input_pin_with_id_of_model (input_pin_id : String) (model : Model) :
    Except String (Option Pin) :=
  match model.Properties.InputPins with
  | none => .error "KeyError: InputPins"
  | some pins => .ok (pins.find? (fun p => p.Id == input_pin_id))

/-- Embeds `utils.get_output_pin_with_id` with `model=None`. -/
def get_output_pin_with_id (output_pin_id : String) (models : List Model) :
    Except String (Option Pin) :=
  match models with
  | [] => .ok none
  | m :: rest =>
    match m.Properties.OutputPins with
    | none => .error "KeyError: OutputPins"
    | some pins =>
      match pins.find? (fun p => p.Id == output_pin_id) with
      | some p => .ok (some p)
      | none => get_output_pin_with_id output_pin_id rest

/-- Embeds `utils.get_target_of_pin_recursively`.  Follows the first connection of
`output_pin`: stops at an input pin (returning its owner id), recurses
through an output pin, returns `none` when the pin has no `Connections`
key, and raises `ValueError` when the target pin id is in neither pin set.
The Python original recurses without a cycle guard; `fuel` bounds that
recursion, and `fuel = 0` models the recursion not terminating. -/
def get_target_of_pin_recursively (fuel : Nat) (output_pin : Pin) (models : List Model)
    (input_pins output_pins : List String) : Except String (Option String) :=
  match fuel with
  | 0 => .error "RecursionError"
  | fuel + 1 =>
    match output_pin.Connections with
    | none => .ok none
    | some [] => .error "IndexError: Connections"
    | some (c :: _) =>
      if c.TargetPin ∈ input_pins then
        match get_input_pin_with_id c.TargetPin models with
        | .error e => .error e
        | .ok none => .error "TypeError: NoneType"
        | .ok (some next_pin) => .ok (some next_pin.Owner)
      else if c.TargetPin ∈ output_pins then
        match get_output_pin_with_id c.TargetPin models with
        | .error e => .error e
        | .ok none => .error "TypeError: NoneType"
        | .ok (some next_pin) =>
          get_target_of_pin_recursively fuel next_pin models input_pins output_pins
      else
        .error ("target_pin_id " ++ c.TargetPin ++
          " neither in input_pins nor in output_pins")

/-- First match of the regex `![^=]` (a `!` followed by a character other than
`=`); `re.search` scans left to right, and a trailing `!` cannot match. -/
def findBang : List Char → Option Nat
  | [] => none
  | c :: rest =>
    match rest with
    | [] => none
    | c2 :: _ =>
      if c = '!' ∧ c2 ≠ '=' then some 0 else (findBang rest).map (· + 1)

/-- The `while regex_match` loop of `utils.convert_condition_from_articy_to_python`:
replace the matched `!` by `not ` and search again.  Every iteration removes
exactly one `!`, so fuel `s.length` is always enough. -/
def bangLoopCore : Nat → List Char → List Char
  | 0, s => s
  | fuel+1, s =>
    match findBang s with
    | none => s
    | some i =>
      bangLoopCore fuel (s.take i ++ ('n' :: 'o' :: 't' :: ' ' :: []) ++ s.drop (i + 1))

/-- Embeds `utils.convert_condition_from_articy_to_python`. -/
def convert_condition_from_articy_to_python (text : String) : String :=
  let t := pyReplaceL "true" "True" text.data
  let t := pyReplaceL "false" "False" t
  let t := pyReplaceL "&&" "and" t
  let t := pyReplaceL "||" "or" t
  let t := bangLoopCore t.length t
  pyStrip (String.mk t)

/-- Embeds `utils.add_escape_characters`. -/
def add_escape_characters (text : String) : String :=
  let t := pyReplaceL "\"" "\\\"" text.data
  let t := pyReplaceL "\x27" "\\\x27" t
  let t := pyReplaceL "%" "\\%" t
  String.mk t

/-- Embeds `utils.get_choice_text`: menu text of the target model if non-empty, else
the connection label if non-empty, else the target models body text. -/
def get_choice_text (model : Model) (connection : Connection) : String :=
  match model.Properties.MenuText with
  | some mt =>
    if mt ≠ "" then mt
    else if connection.Label ≠ "" then connection.Label
    else model.Properties.Text
  | none =>
    if connection.Label ≠ "" then connection.Label
    else model.Properties.Text

/-- The `while True` loop of `utils.get_free_character_name`: try
`name_count`, `name_(count+1)`, ... until a name is free.  Fuel
`vals.length + 1` is always enough (pigeonhole, proved below). -/
def freeNameCore (character_name : String) (vals : List String) : Nat → Nat → String
  | count, 0 => character_name ++ "_" ++ Nat.repr count
  | count, fuel+1 =>
    if (character_name ++ "_" ++ Nat.repr count) ∈ vals then
      freeNameCore character_name vals (count + 1) fuel
    else
      character_name ++ "_" ++ Nat.repr count

/-- Embeds `utils.get_free_character_name`.  The Python dict is modeled as an
association list; only its value collection matters here. -/
def get_free_character_name (character_name : String)
    (entity_id_to_character_name_map : List (String × String)) : String :=
  let vals := entity_id_to_character_name_map.map Prod.snd
  if character_name ∈ vals then
    freeNameCore character_name vals 1 (vals.length + 1)
  else character_name

/-- Embeds `utils.string_to_list` for a one-character separator (the source only
ever passes one-character separators): split, strip each segment, drop
segments that strip to the empty string. -/
def string_to_list (string : String) (separator : Char) : List String :=
  ((splitChar separator string.data).map (fun x => String.mk (stripL x))).filter
    (fun x => x ≠ "")

/-- Embeds `utils.get_choice_index`: explicit numeric priority from the stage
directions if present; `index_default_value` alone if the stage-directions
field is the empty string; otherwise `index_default_value` plus the model id
read with `int(_, 0)`.  `none` models the `ValueError` of an unparseable id. -/
def get_choice_index (model : Model) (index_default_value : Int) : Option Int :=
  match model.Properties.StageDirections with
  | none => (pyIntBase0 model.Properties.Id).map (fun idv => index_default_value + idv)
  | some stage_directions =>
    if stage_directions = "" then some index_default_value
    else
      match (string_to_list stage_directions ',').findSome? pyInt with
      | some index => some index
      | none => (pyIntBase0 model.Properties.Id).map (fun idv => index_default_value + idv)

/-- Embeds `utils.get_connection_index` (with the default `index_default_value = 1904`
of `get_choice_index`); `none` models the crash on a missing target model. -/
def get_connection_index (connection : Connection) (models : List Model) : Option Int :=
  match get_model_with_id connection.Target models with
  | none => none
  | some choice_model => get_choice_index choice_model 1904

/-- Embeds `utils.has_stage_direction`: some stripped comma segment of the
stage-directions field, with its remaining spaces removed, equals `attr`
(the source parameter is called `attribute`, a Lean keyword); `false` when
the field is absent. -/
def has_stage_direction (model : Model) (attr : String) : Bool :=
  match model.Properties.StageDirections with
  | none => false
  | some stage_directions =>
    (string_to_list stage_directions ',').any
      (fun d => String.mk (pyReplaceL " " "" d.data) == attr)

/-- Embeds `utils.get_substr_between` on character lists. -/
def get_substr_between_chars (text left right : List Char) : Option (List Char) :=
  match pyFind text left 0 with
  | none => none
  | some index_left =>
    match pyFind text right (index_left + left.length) with
    | none => none
    | some index_right => some (pySlice text (index_left + left.length) index_right)

/-- Embeds `utils.get_substr_between`. -/
def get_substr_between (text left right : String) : Option String :=
  (get_substr_between_chars text.data left.data right.data).map String.mk

/-- Embeds `utils.get_label`: an explicit label from the stage directions if present,
else a default of the label prefix plus the model id.  (`labelPrefixStr`
stands for the source parameter `label_prefix`.) -/
def get_label (model : Model) (labelPrefixStr : String) : String :=
  match model.Properties.StageDirections with
  | some stage_directions =>
    match get_substr_between stage_directions "label=\"" "\"" with
    | some l => l
    | none => labelPrefixStr ++ model.Properties.Id
  | none => labelPrefixStr ++ model.Properties.Id

/-- Lazy search for the closing `**` of the regex `\*\*(.*?)\*\*`: the shortest
split `rest = inside ++ [het, het] ++ after` with stars, where `inside` has no
newline (`.` does not match a newline).  Returns `(inside, after)`. -/
def findCloseSS : List Char → Option (List Char × List Char)
  | [] => none
  | c :: rest =>
    match rest with
    | [] => none
    | c2 :: rest2 =>
      if c = '*' ∧ c2 = '*' then some ([], rest2)
      else if c = '\n' then none
      else (findCloseSS rest).map (fun p => (c :: p.1, p.2))

/-- Lazy search for a one-character closing delimiter `cl` (for `\*(.*?)\*` and
`_(.*?)_`): the shortest split `rest = inside ++ [cl] ++ after` where `inside`
has no newline. -/
def findClose1 (cl : Char) : List Char → Option (List Char × List Char)
  | [] => none
  | c :: rest =>
    if c = cl then some ([], rest)
    else if c = '\n' then none
    else (findClose1 cl rest).map (fun p => (c :: p.1, p.2))

/-- Embeds `re.sub` with the pattern `\*\*(.*?)\*\*` and replacement `{b}\1{/b}`.
On a failed match the scan advances one character.  Fuel: every recursive
call is on a strictly shorter list, so `s.length` is always enough. -/
def subBoldCore : Nat → List Char → List Char
  | 0, s => s
  | _+1, [] => []
  | fuel+1, '*' :: '*' :: rest =>
    (match findCloseSS rest with
     | some (inside, after) =>
       '\x7b' :: 'b' :: '\x7d' ::
         (inside ++ '\x7b' :: '/' :: 'b' :: '\x7d' :: subBoldCore fuel after)
     | none => '*' :: subBoldCore fuel ('*' :: rest))
  | fuel+1, c :: rest => c :: subBoldCore fuel rest

/-- Embeds `re.sub` with a one-character delimiter pattern (`\*(.*?)\*` or `_(.*?)_`)
and replacement `tagOpen ++ \1 ++ tagClose`. -/
def subLazy1Core (de : Char) (tagOpen tagClose : List Char) : Nat → List Char → List Char
  | 0, s => s
  | _+1, [] => []
  | fuel+1, c :: rest =>
    if c = de then
      match findClose1 de rest with
      | some (inside, after) =>
        tagOpen ++ inside ++ tagClose ++ subLazy1Core de tagOpen tagClose fuel after
      | none => c :: subLazy1Core de tagOpen tagClose fuel rest
    else c :: subLazy1Core de tagOpen tagClose fuel rest

/-- Embeds `utils.text_style_markdown_to_renpy` on a character list: the three
`re.sub` rewrites for bold, italic and underlined text, in source order. -/
def text_style_markdown_to_renpy_chars (text : List Char) : List Char :=
  let t := subBoldCore text.length text
  let t := subLazy1Core '*' ('\x7b' :: 'i' :: '\x7d' :: []) ('\x7b' :: '/' :: 'i' :: '\x7d' :: []) t.length t
  let t := subLazy1Core '_' ('\x7b' :: 'u' :: '\x7d' :: []) ('\x7b' :: '/' :: 'u' :: '\x7d' :: []) t.length t
  t

/-- Embeds `utils.text_style_markdown_to_renpy`. -/
def text_style_markdown_to_renpy (text : String) : String :=
  String.mk (text_style_markdown_to_renpy_chars text.data)

/-- The `while remaining_text` loop of `utils.add_renpy_text_style_commands`:
split `remaining` into the parts outside square brackets (changeable, first
component) and the bracketed parts (unchanged, second component).  Fuel:
every iteration consumes at least two characters, so `remaining.length` is
always enough.  The inner `none` branch is unreachable (the bracket string
returned by `get_substr_between_chars` always occurs in `remaining`). -/
def splitBracketsCore : Nat → List Char → List (List Char) × List (List Char)
  | 0, _ => ([], [])
  | fuel+1, remaining =>
    if remaining = [] then ([], [])
    else
      match get_substr_between_chars remaining ['['] [']'] with
      | none => ([remaining], [])
      | some substr =>
        let bracket := '[' :: (substr ++ [']'])
        match pyFind remaining bracket 0 with
        | none => ([remaining], [])
        | some substr_index =>
          let changeable := remaining.take substr_index
          let rest := remaining.drop (substr_index + bracket.length)
          if rest = [] then ([changeable, []], [bracket])
          else
            let p := splitBracketsCore fuel rest
            (changeable :: p.1, bracket :: p.2)

/-- The assembly loop at the end of `utils.add_renpy_text_style_commands`:
`md(cs[0]) + us[0] + md(cs[1]) + us[1] + ... + md(cs[-1])`.  `none` models the
`IndexError` Python raises when `cs` is empty (which happens exactly for the
empty input text) or shorter than `us + 1`. -/
def assembleParts : List (List Char) → List (List Char) → Option (List Char)
  | [], _ => none
  | [c], _ => some (text_style_markdown_to_renpy_chars c)
  | c :: c2 :: cs, u :: us =>
    (assembleParts (c2 :: cs) us).map
      (fun t => text_style_markdown_to_renpy_chars c ++ u ++ t)
  | _ :: _ :: _, [] => none

/-- Embeds `utils.add_renpy_text_style_commands`: markdown styling applied only to
the text outside square brackets.  `none` models the `IndexError` on empty
input. -/
def add_renpy_text_style_commands (text : String) : Option String :=
  let p := splitBracketsCore text.data.length text.data
  (assembleParts p.1 p.2).map String.mk

/-- Embeds `utils.preprocess_text`. -/
def preprocess_text (text : String) (markdown_text_styles : Bool) : Option String :=
  let t := add_escape_characters text
  if markdown_text_styles then add_renpy_text_style_commands t else some t

/-! ### converter.py

The pieces of the `Converter` class that the claims are about.  The
configuration and read-only data the methods consult live in `Conv`; the
two mutable attributes are threaded explicitly: `renpy_definitions` as a
list (only membership matters) and `log_data` as an association list from
output file to its warning list. -/

/-- The converter state used by the embedded methods.  `labelPrefixStr` and
`end_label` are the constructor parameters `label_prefix` and `end_label`;
`input_pins` and `output_pins` are the id sets built by `read_data`. -/
structure Conv where
  models : List Model
  input_pins : List String
  output_pins : List String
  labelPrefixStr : String
  end_label : String
  menu_display_text_box : Bool
  markdown_text_styles : Bool
deriving Repr

/-- The source constant `INDENT`. -/
def INDENT : String := "    "

/-- Python `INDENT * indent_level`. -/
def indentN (n : Nat) : String := String.join (List.replicate n INDENT)

/-- Embeds `Converter.log_data`. -/
abbrev LogData := List (String × List String)

/-- Appends `msg` to the entry of `path` (the first one; dictionary keys are
unique). -/
def logUpd : LogData → String → String → LogData
  | [], _, _ => []
  | (k, v) :: rest, path, msg =>
    if k = path then (k, v ++ [msg]) :: rest
    else (k, v) :: logUpd rest path msg

/-- Embeds `Converter.log`: append `msg` to the warning list of `path`, creating the
entry if needed. -/
def logAdd (log_data : LogData) (path msg : String) : LogData :=
  if (log_data.lookup path).isSome then logUpd log_data path msg
  else log_data ++ [(path, [msg])]

/-- Embeds `Converter.add_new_definition`: fatal `ValueError` on a duplicate,
otherwise the identifier is added to the issued set. -/
def add_new_definition (renpy_definitions : List String) (new_definition : String) :
    Except String (List String) :=
  if new_definition ∈ renpy_definitions then
    .error ("ValueError: definition " ++ new_definition ++ " already used")
  else
    .ok (new_definition :: renpy_definitions)

/-- Modelled from the spec: `get_connections_num` is imported by
converter.py (`from utils import *`) but its definition is not under src.
Per the spec (zero, one, or many connections *on the governing pin set*), it
is the total number of connections across the given pins, a pin without a
`Connections` entry contributing zero. -/
def get_connections_num (pins : List Pin) : Nat :=
  (pins.map (fun p => (p.Connections.getD []).length)).sum

/-- Embeds `Converter.lines_of_expression`: translate the expression, strip line
breaks, split on `;`, emit one `$` statement per non-empty segment. -/
def lines_of_expression (expression : String) (indent_lvl : Nat) : List String :=
  let instructions := convert_condition_from_articy_to_python expression
  let instructions := pyReplaceL "\n" "" instructions.data
  let instructions := pyReplaceL "\r" "" instructions
  ((splitChar ';' instructions).filter (fun i => i ≠ [])).map
    (fun i => indentN indent_lvl ++ "$ " ++ String.mk i ++ "\n")

/-- Stable insertion of a keyed connection (equal keys keep insertion order). -/
def insertKeyed (x : Int × Connection) : List (Int × Connection) → List (Int × Connection)
  | [] => [x]
  | y :: ys => if x.1 ≤ y.1 then x :: y :: ys else y :: insertKeyed x ys

/-- Stable sort of keyed connections by key, as Python `sorted`. -/
def sortKeyed : List (Int × Connection) → List (Int × Connection)
  | [] => []
  | x :: xs => insertKeyed x (sortKeyed xs)

/-- Python `sorted(connections, key=lambda c: get_connection_index(c, models))`:
compute every key (a failing key computation is a crash), then sort stably. -/
def sortedByConnectionIndex (connections : List Connection) (models : List Model) :
    Except String (List Connection) :=
  match connections.mapM (fun conn =>
      match get_connection_index conn models with
      | some k => Except.ok (k, conn)
      | none => Except.error "TypeError: bad sort key") with
  | .error e => .error e
  | .ok keyed => .ok ((sortKeyed keyed).map Prod.snd)

/-- The body of the inner `for connection in connections` loop of
`Converter.lines_of_menu`: the lines of one menu option. -/
def menuChoiceLines (c : Conv) (pin : Pin) (indent_level : Nat) (connection : Connection) :
    Except String (List String) :=
  match get_model_with_id connection.Target c.models with
  | none => .error "TypeError: NoneType"
  | some choice_model =>
    let choice_label := get_label choice_model c.labelPrefixStr
    let choice_text := get_choice_text choice_model connection
    if choice_text = "" then
      .error ("Could not get choice text for connection with target model " ++
        connection.Target)
    else
      let markdown :=
        if has_stage_direction choice_model "markdown=True" then true
        else if has_stage_direction choice_model "markdown=False" then false
        else c.markdown_text_styles
      match preprocess_text choice_text markdown with
      | none => .error "IndexError"
      | some choice_text2 =>
        match get_input_pin_with_id_of_model connection.TargetPin choice_model with
        | .error e => .error e
        | .ok none => .error "TypeError: NoneType"
        | .ok (some choice_input_pin) =>
          let cond_text :=
            String.mk (pyReplaceL "\n" " " (pyReplaceL "\r" " " choice_input_pin.Text.data))
          let choice_condition := convert_condition_from_articy_to_python cond_text
          let header :=
            if choice_condition ≠ "" then
              indentN (indent_level + 1) ++ "\"" ++ choice_text2 ++ "\" if " ++
                choice_condition ++ ":\n"
            else
              indentN (indent_level + 1) ++ "\"" ++ choice_text2 ++ "\":\n"
          .ok ([header] ++ lines_of_expression pin.Text (indent_level + 2) ++
            [indentN (indent_level + 2) ++ "jump " ++ choice_label ++ "\n"])

/-- The inner loop of `Converter.lines_of_menu` over the (sorted) connections. -/
def menuChoicesLines (c : Conv) (pin : Pin) (indent_level : Nat) :
    List Connection → Except String (List String)
  | [] => .ok []
  | conn :: rest =>
    match menuChoiceLines c pin indent_level conn with
    | .error e => .error e
    | .ok ls =>
      match menuChoicesLines c pin indent_level rest with
      | .error e => .error e
      | .ok ls2 => .ok (ls ++ ls2)

/-- The outer loop of `Converter.lines_of_menu` over the pins: read each pins
connections (`KeyError` if absent), sort them, emit the option lines. -/
def menuPinsLines (c : Conv) (indent_level : Nat) : List Pin → Except String (List String)
  | [] => .ok []
  | pin :: rest =>
    match pin.Connections with
    | none => .error "KeyError: Connections"
    | some connections =>
      match sortedByConnectionIndex connections c.models with
      | .error e => .error e
      | .ok sorted_conns =>
        match menuChoicesLines c pin indent_level sorted_conns with
        | .error e => .error e
        | .ok ls =>
          match menuPinsLines c indent_level rest with
          | .error e => .error e
          | .ok ls2 => .ok (ls ++ ls2)

/-- Embeds `Converter.lines_of_menu`. -/
def lines_of_menu (c : Conv) (pins : List Pin) (display_text_box : Bool)
    (indent_level : Nat) : Except String (List String) :=
  let header := [indentN indent_level ++ "menu:\n"] ++
    (if display_text_box then [indentN (indent_level + 1) ++ "extend \"\"\n\n"] else [])
  match menuPinsLines c indent_level pins with
  | .error e => .error e
  | .ok ls => .ok (header ++ ls)

/-- Embeds `Converter.lines_of_single_jump`: emit the output pins inline statements
(at the default indent 1, as in the source), resolve the target recursively,
fall back to the terminal label (plus one log entry) when resolution reports
no target. -/
def lines_of_single_jump (c : Conv) (log_data : LogData) (output_pin : Pin)
    (model_id path_file : String) (indent_level : Nat) (fuel : Nat) :
    Except String (List String × LogData) :=
  let lines := lines_of_expression output_pin.Text 1
  match get_target_of_pin_recursively fuel output_pin c.models c.input_pins c.output_pins with
  | .error e => .error e
  | .ok none =>
    match get_model_with_id model_id c.models with
    | none => .error "TypeError: NoneType"
    | some model =>
      let label := get_label model c.labelPrefixStr
      let log2 := logAdd log_data path_file
        (label ++ " was not assigned any jump target in Articy, will jump to \"" ++
          c.end_label ++ "\"")
      .ok (lines ++ [indentN indent_level ++ "jump " ++ c.end_label ++ "\n"], log2)
  | .ok (some target_model_id) =>
    match get_model_with_id target_model_id c.models with
    | none => .error "TypeError: NoneType"
    | some model =>
      let target_label := get_label model c.labelPrefixStr
      .ok (lines ++ [indentN indent_level ++ "jump " ++ target_label ++ "\n"], log_data)

/-- The `for pin in pins` selection in the one-connection branch of
`Converter.lines_of_jump_logic_with_pins`: the last pin carrying at least
one connection. -/
def lastPinWithConnections (pins : List Pin) : Option Pin :=
  pins.foldl
    (fun acc pin =>
      match pin.Connections with
      | some (_ :: _) => some pin
      | _ => acc)
    none

/-- Embeds `Converter.lines_of_jump_logic_with_pins`: zero connections on the pin
set emit a jump to the terminal label plus one log entry; one connection
delegates to `lines_of_single_jump`; more delegate to `lines_of_menu`. -/
def lines_of_jump_logic_with_pins (c : Conv) (log_data : LogData) (model : Model)
    (path_file : String) (pins : List Pin) (indent_level : Nat) (fuel : Nat) :
    Except String (List String × LogData) :=
  let connections_num := get_connections_num pins
  if connections_num = 0 then
    let label := get_label model c.labelPrefixStr
    let log2 := logAdd log_data path_file
      (label ++ " was not assigned any jump target in Articy, will jump to \"" ++
        c.end_label ++ "\"")
    .ok ([indentN indent_level ++ "jump " ++ c.end_label ++ "\n"], log2)
  else if connections_num = 1 then
    match lastPinWithConnections pins with
    | none => .error "TypeError: NoneType"
    | some output_pin =>
      lines_of_single_jump c log_data output_pin model.Properties.Id path_file
        indent_level fuel
  else
    let display_text_box :=
      if has_stage_direction model "display_text_box=False" then false
      else if has_stage_direction model "display_text_box=True" then true
      else c.menu_display_text_box
    match lines_of_menu c pins display_text_box indent_level with
    | .error e => .error e
    | .ok ls => .ok (ls, log_data)

/-! ### Statement helpers and concrete example data -/

/-- Interleaving used to state what `add_renpy_text_style_commands` produces:
`joinIL [c0, c1, ...] [u0, u1, ...] = c0 ++ u0 ++ c1 ++ u1 ++ ...` (the
changeable lists is one longer than the unchanged one). -/
def joinIL : List (List Char) → List (List Char) → List Char
  | [], _ => []
  | c :: _, [] => c
  | c :: cs, u :: us => c ++ u ++ joinIL cs us

/-- The reading of `has_stage_direction` that claim C10 states, following the
spec words only: some comma-separated segment of the raw stage-directions
field, with all space characters removed, equals the queried directive. -/
def spec_stage_direction_match (stage_directions attr : String) : Bool :=
  (splitChar ',' stage_directions.data).any
    (fun seg => String.mk (pyReplaceL " " "" seg) == attr)

/-- A dialogue-fragment model with one input pin `i<id>` and the given
stage directions and menu text. -/
def chModel (id : String) (sd : Option String) (mt : String) : Model :=
  ⟨"DialogueFragment",
    ⟨id, "text " ++ id, some mt, sd, some [⟨"i" ++ id, id, "", none⟩], some []⟩⟩

/-- Menu destination with explicit priority 5. -/
def exMod10 : Model := chModel "10" (some "5") "Option5"

/-- Menu destination with explicit priority 1. -/
def exMod11 : Model := chModel "11" (some "1") "Option1"

/-- Menu destination without stage directions, id 2. -/
def exMod2 : Model := chModel "2" none "OptionB"

/-- Menu destination without stage directions, id 3. -/
def exMod3 : Model := chModel "3" none "OptionA"

/-- Menu destination whose menu text, body text and (with the connection
below) connection label are all empty. -/
def exModEmpty : Model :=
  ⟨"DialogueFragment", ⟨"7", "", some "", none, some [⟨"i7", "7", "", none⟩], some []⟩⟩

/-- Menu destination with empty stage directions, id 8. -/
def exMod8 : Model := chModel "8" (some "") "OptionX"

/-- Menu destination with empty stage directions, id 9. -/
def exMod9 : Model := chModel "9" (some "") "OptionY"

/-- Example converter state for the menu claims (markdown styling off, menu
text box on, default label prefix and end label). -/
def exConv : Conv :=
  ⟨[exMod10, exMod11, exMod2, exMod3, exModEmpty, exMod8, exMod9], [], [],
    "label_", "end", true, false⟩

/-- A connection to the input pin `i<id>` of model `id`, with an empty label. -/
def cTo (id : String) : Connection := ⟨id, "i" ++ id, ""⟩

/-- Model with empty stage directions and numeric id 3 (for claim C3). -/
def exEmptySD : Model := chModel "3" (some "") "x"

/-- Input pin of the final target `D` of the container chain. -/
def exPinD : Pin := ⟨"id", "D", "", none⟩

/-- Output pin of container `A`, connected to the input pin of `D`. -/
def exPinA : Pin := ⟨"oa", "A", "", some [⟨"D", "id", ""⟩]⟩

/-- Output pin of container `B`, connected onward to the output pin of `A`. -/
def exPinB : Pin := ⟨"ob", "B", "", some [⟨"A", "oa", ""⟩]⟩

/-- Output pin of the innermost container `C`, connected to the output pin
of `B`. -/
def exPinC : Pin := ⟨"oc", "C", "", some [⟨"B", "ob", ""⟩]⟩

/-- A container-like model with the given pins. -/
def mkCont (id : String) (ip op : List Pin) : Model :=
  ⟨"FlowFragment", ⟨id, "", none, none, some ip, some op⟩⟩

/-- The nested-container chain A, B, C with final target D. -/
def exChainModels : List Model :=
  [mkCont "A" [] [exPinA], mkCont "B" [] [exPinB], mkCont "C" [] [exPinC],
   mkCont "D" [exPinD] []]

/-- Model with stage directions containing a tab (for claim C10). -/
def exTabSD : Model := chModel "1" (some "\tmarkdown=True") ""

/-- Model with stage directions `markdown = True` (for claim C10). -/
def exSpacedSD : Model := chModel "1" (some "markdown = True") ""

/-- Number of diagnostics recorded for one output file. -/
def logCount (log_data : LogData) (path : String) : Nat :=
  ((log_data.lookup path).getD []).length

/-! ### Lemmas about the diagnostics log -/

theorem lookup_logUpd (d : LogData) (path msg : String) :
    (logUpd d path msg).lookup path = (d.lookup path).map (fun v => v ++ [msg]) := by
  induction d with
  | nil => rfl
  | cons e rest ih =>
    obtain ⟨k, v⟩ := e
    by_cases h : k = path
    · subst h
      simp [logUpd, List.lookup]
    · have hne : (path == k) = false := by
        simp only [beq_eq_false_iff_ne]
        exact fun hh => h hh.symm
      simp [logUpd, h, List.lookup, hne, ih]

theorem lookup_append_single_none (d : LogData) (path msg : String)
    (h : d.lookup path = none) :
    (d ++ [(path, [msg])]).lookup path = some [msg] := by
  induction d with
  | nil => simp [List.lookup]
  | cons e rest ih =>
    obtain ⟨k, v⟩ := e
    simp only [List.lookup] at h ⊢
    cases hk : (path == k) with
    | true => simp [hk] at h
    | false =>
      simp only [hk] at h ⊢
      exact ih h

theorem logCount_logAdd (d : LogData) (path msg : String) :
    logCount (logAdd d path msg) path = logCount d path + 1 := by
  unfold logCount logAdd
  cases h : d.lookup path with
  | some v =>
    simp only [h, Option.isSome_some, if_pos]
    rw [lookup_logUpd d path msg, h]
    simp
  | none =>
    simp only [h, Option.isSome_none, Bool.false_eq_true, if_false]
    rw [lookup_append_single_none d path msg h]
    simp

/-! ### Claims C1, C4, C5, C6 -/

/-- C1: for every output pin with at least one connection, resolution follows
the first connections target pin: a target pin id among the known input pins
stops resolution at the owner of that input pin; one among the known output
pins recurses on that output pin.  Consequently the nested empty containers
A ⊃ B ⊃ C, each with one outbound connection chained through the enclosing
containers exit pins, resolve to the node D ultimately reachable from the
connection of C, never to B or A. -/
theorem C1_pin_resolution :
    (∀ (fuel : Nat) (pin : Pin) (models : List Model) (ip op : List String)
        (conn : Connection) (conns : List Connection) (ipin : Pin),
        pin.Connections = some (conn :: conns) →
        conn.TargetPin ∈ ip →
        get_input_pin_with_id conn.TargetPin models = .ok (some ipin) →
        get_target_of_pin_recursively (fuel + 1) pin models ip op = .ok (some ipin.Owner)) ∧
    (∀ (fuel : Nat) (pin : Pin) (models : List Model) (ip op : List String)
        (conn : Connection) (conns : List Connection) (opin : Pin),
        pin.Connections = some (conn :: conns) →
        conn.TargetPin ∉ ip →
        conn.TargetPin ∈ op →
        get_output_pin_with_id conn.TargetPin models = .ok (some opin) →
        get_target_of_pin_recursively (fuel + 1) pin models ip op =
          get_target_of_pin_recursively fuel opin models ip op) ∧
    get_target_of_pin_recursively 4 exPinC exChainModels ["id"] ["oa", "ob", "oc"] =
      .ok (some "D") := by
  refine ⟨?_, ?_, rfl⟩
  · intro fuel pin models ip op conn conns ipin h1 h2 h3
    simp [get_target_of_pin_recursively, h1, h2, h3]
  · intro fuel pin models ip op conn conns opin h1 h2 h3 h4
    simp [get_target_of_pin_recursively, h1, h2, h3, h4]

/-- Witness for C1 at a concrete input: the output pin of container A has one
connection into the input pin of D, and resolution returns the owner D. -/
theorem C1_pin_resolution_witness :
    get_target_of_pin_recursively 1 exPinA exChainModels ["id"] ["oa", "ob", "oc"] =
      .ok (some "D") :=
  C1_pin_resolution.1 0 exPinA exChainModels ["id"] ["oa", "ob", "oc"]
    ⟨"D", "id", ""⟩ [] exPinD rfl (by decide) rfl

/-- C4: a pin set with zero connections emits exactly one jump, to the
terminal label, and appends exactly one diagnostic entry for the output
file; the result is a normal return (recoverable), not an error. -/
theorem C4_zero_connections :
    ∀ (c : Conv) (log_data : LogData) (model : Model) (path_file : String)
      (pins : List Pin) (indent_level fuel : Nat),
      get_connections_num pins = 0 →
      lines_of_jump_logic_with_pins c log_data model path_file pins indent_level fuel =
        .ok ([indentN indent_level ++ "jump " ++ c.end_label ++ "\n"],
          logAdd log_data path_file
            (get_label model c.labelPrefixStr ++
              " was not assigned any jump target in Articy, will jump to \"" ++
              c.end_label ++ "\"")) ∧
      logCount
          (logAdd log_data path_file
            (get_label model c.labelPrefixStr ++
              " was not assigned any jump target in Articy, will jump to \"" ++
              c.end_label ++ "\"")) path_file =
        logCount log_data path_file + 1 := by
  intro c log_data model path_file pins indent_level fuel h
  constructor
  · simp [lines_of_jump_logic_with_pins, h]
  · exact logCount_logAdd log_data path_file _

/-- Witness for C4 at a concrete input: one pin without connections. -/
theorem C4_zero_connections_witness :
    lines_of_jump_logic_with_pins exConv [] exMod2 "f.rpy" [⟨"p", "2", "", none⟩] 1 5 =
      .ok (["    jump end\n"],
        [("f.rpy",
          ["label_2 was not assigned any jump target in Articy, will jump to \"end\""])]) :=
  (C4_zero_connections exConv [] exMod2 "f.rpy" [⟨"p", "2", "", none⟩] 1 5 (by decide)).1

/-- C5: issuing an identifier raises the fatal `ValueError` exactly when the
identifier was already issued; otherwise it is added to the issued set. -/
theorem C5_add_new_definition :
    ∀ (renpy_definitions : List String) (new_definition : String),
      ((∃ msg, add_new_definition renpy_definitions new_definition = .error msg) ↔
        new_definition ∈ renpy_definitions) ∧
      (new_definition ∉ renpy_definitions →
        add_new_definition renpy_definitions new_definition =
          .ok (new_definition :: renpy_definitions) ∧
        new_definition ∈ new_definition :: renpy_definitions) := by
  intro renpy_definitions new_definition
  by_cases h : new_definition ∈ renpy_definitions
  · simp [add_new_definition, h]
  · simp [add_new_definition, h]

/-- Witness for C5 at a concrete input: a fresh identifier is issued and
recorded. -/
theorem C5_add_new_definition_witness :
    add_new_definition ["start"] "end" = .ok ["end", "start"] ∧
      "end" ∈ ["end", "start"] :=
  (C5_add_new_definition ["start"] "end").2 (by decide)

/-- C6: a connection whose target pin id is in neither the known input pins
nor the known output pins makes resolution raise the fatal `ValueError`
naming the pin; no substitute target is returned. -/
theorem C6_invalid_pin_fatal :
    ∀ (fuel : Nat) (pin : Pin) (models : List Model) (ip op : List String)
      (conn : Connection) (conns : List Connection),
      pin.Connections = some (conn :: conns) →
      conn.TargetPin ∉ ip →
      conn.TargetPin ∉ op →
      get_target_of_pin_recursively (fuel + 1) pin models ip op =
        .error ("target_pin_id " ++ conn.TargetPin ++
          " neither in input_pins nor in output_pins") := by
  intro fuel pin models ip op conn conns h1 h2 h3
  simp [get_target_of_pin_recursively, h1, h2, h3]

/-- Witness for C6 at a concrete input. -/
theorem C6_invalid_pin_fatal_witness :
    get_target_of_pin_recursively 1 ⟨"p", "M", "", some [⟨"X", "nowhere", ""⟩]⟩ [] ["a"] ["b"] =
      .error "target_pin_id nowhere neither in input_pins nor in output_pins" :=
  C6_invalid_pin_fatal 0 ⟨"p", "M", "", some [⟨"X", "nowhere", ""⟩]⟩ [] ["a"] ["b"]
    ⟨"X", "nowhere", ""⟩ [] rfl (by decide) (by decide)

/-! ### Claim C2 (expression translation) -/

theorem replaceAllCore_of_not_contains (p : Char) (ps repl : List Char) :
    ∀ (fuel : Nat) (s : List Char), containsSub (p :: ps) s = false →
      replaceAllCore p ps repl fuel s = s := by
  intro fuel
  induction fuel with
  | zero =>
    intro s _
    cases s with
    | nil => rfl
    | cons c rest => rfl
  | succ fuel ih =>
    intro s h
    cases s with
    | nil => rfl
    | cons c rest =>
      simp only [containsSub, Bool.or_eq_false_iff] at h
      simp only [replaceAllCore, h.1, Bool.false_eq_true, if_false]
      rw [ih rest h.2]

theorem pyReplaceL_of_not_contains (pat repl : String) (s : List Char)
    (h : containsSub pat.data s = false) : pyReplaceL pat repl s = s := by
  unfold pyReplaceL
  cases hp : pat.data with
  | nil => rfl
  | cons p ps =>
    rw [hp] at h
    exact replaceAllCore_of_not_contains p ps repl.data s.length s h

theorem findBang_of_not_mem : ∀ s : List Char, '!' ∉ s → findBang s = none := by
  intro s
  induction s with
  | nil => intro h; rfl
  | cons c rest ih =>
    intro h
    have hc : c ≠ '!' := fun hh => h (hh ▸ List.mem_cons_self c rest)
    have hrest : '!' ∉ rest := fun hr => h (List.mem_cons_of_mem c hr)
    cases rest with
    | nil => rfl
    | cons c2 r2 =>
      have hcond : ¬(c = '!' ∧ c2 ≠ '=') := fun hh => hc hh.1
      have hstep : findBang (c :: c2 :: r2) =
          if c = '!' ∧ c2 ≠ '=' then some 0 else (findBang (c2 :: r2)).map (· + 1) := rfl
      rw [hstep, if_neg hcond, ih hrest]
      rfl

theorem bangLoopCore_of_none (fuel : Nat) (s : List Char) (h : findBang s = none) :
    bangLoopCore fuel s = s := by
  cases fuel with
  | zero => rfl
  | succ fuel => simp [bangLoopCore, h]

/-- C2: corrected.  The four token substitutions are plain substring
replacements, applied in source order, so they also rewrite occurrences
inside longer identifiers (see the counterexample); a string containing none
of `true`, `false`, `&&`, `||` as a substring and no `!` character passes
through unchanged apart from Pythons final whitespace strip; the unary `!`
rewrite does not corrupt `!=`; and `true && !ready` translates to
`True and not ready`. -/
theorem C2_expression_translation :
    (∀ s : String,
      containsSub ['t', 'r', 'u', 'e'] s.data = false →
      containsSub ['f', 'a', 'l', 's', 'e'] s.data = false →
      containsSub ['&', '&'] s.data = false →
      containsSub ['|', '|'] s.data = false →
      '!' ∉ s.data →
      convert_condition_from_articy_to_python s = pyStrip s) ∧
    convert_condition_from_articy_to_python "true && !ready" = "True and not ready" ∧
    convert_condition_from_articy_to_python "x != 3" = "x != 3" := by
  refine ⟨?_, by decide, by decide⟩
  intro s h1 h2 h3 h4 h5
  simp only [convert_condition_from_articy_to_python]
  rw [pyReplaceL_of_not_contains _ _ _ h1, pyReplaceL_of_not_contains _ _ _ h2,
    pyReplaceL_of_not_contains _ _ _ h3, pyReplaceL_of_not_contains _ _ _ h4,
    bangLoopCore_of_none _ _ (findBang_of_not_mem _ h5)]

/-- Witness for C2 at a concrete input without any of the rewritten tokens. -/
theorem C2_expression_translation_witness :
    convert_condition_from_articy_to_python "ready and flag" = pyStrip "ready and flag" :=
  C2_expression_translation.1 "ready and flag" (by decide) (by decide) (by decide)
    (by decide) (by decide)

/-- C2 counterexample: the claim says identifiers pass through unchanged, but
the boolean-literal replacement is substring based, so the identifier
`construed` (which contains `true`) is rewritten. -/
theorem C2_counterexample :
    convert_condition_from_articy_to_python "construed" = "consTrued" ∧
      convert_condition_from_articy_to_python "construed" ≠ "construed" := by
  refine ⟨by decide, by decide⟩

/-! ### Claim C3 (menu ordering) -/

/-- C3 counterexample: a destination whose stage-directions field is present
but empty has no explicit priority directive, yet its sort key is the bare
default constant 1904, not the constant plus its numeric id 3 as the claim
states. -/
theorem C3_counterexample :
    get_choice_index exEmptySD 1904 = some 1904 ∧
      pyIntBase0 exEmptySD.Properties.Id = some 3 ∧
      get_choice_index exEmptySD 1904 ≠ some (1904 + 3) := by
  refine ⟨rfl, rfl, by decide⟩

/-- C3: corrected.  The sort key of a destination is its first numeric
stage-direction segment when one exists; the default constant plus the
numeric id when the stage-directions field is absent, or present and
non-empty without a numeric segment; but the bare default constant when the
field is present and empty (so two such destinations keep insertion order).
Concretely: explicit priorities 5 and 1 are emitted as [1, 5] for either
insertion order; destinations without the stage-directions field are emitted
in id order for either insertion order; destinations with an empty
stage-directions field are emitted in insertion order. -/
theorem C3_menu_ordering :
    (∀ (m : Model) (d : Int), m.Properties.StageDirections = none →
      get_choice_index m d = (pyIntBase0 m.Properties.Id).map (fun v => d + v)) ∧
    (∀ (m : Model) (d : Int), m.Properties.StageDirections = some "" →
      get_choice_index m d = some d) ∧
    (∀ (m : Model) (d : Int) (sd : String) (n : Int),
      m.Properties.StageDirections = some sd → sd ≠ "" →
      (string_to_list sd ',').findSome? pyInt = some n →
      get_choice_index m d = some n) ∧
    (∀ (m : Model) (d : Int) (sd : String),
      m.Properties.StageDirections = some sd → sd ≠ "" →
      (string_to_list sd ',').findSome? pyInt = none →
      get_choice_index m d = (pyIntBase0 m.Properties.Id).map (fun v => d + v)) ∧
    (lines_of_menu exConv [⟨"p1", "S", "", some [cTo "10", cTo "11"]⟩] false 1 =
        .ok ["    menu:\n",
          "        \"Option1\":\n", "            jump label_11\n",
          "        \"Option5\":\n", "            jump label_10\n"] ∧
      lines_of_menu exConv [⟨"p1", "S", "", some [cTo "11", cTo "10"]⟩] false 1 =
        .ok ["    menu:\n",
          "        \"Option1\":\n", "            jump label_11\n",
          "        \"Option5\":\n", "            jump label_10\n"]) ∧
    (lines_of_menu exConv [⟨"p2", "S", "", some [cTo "3", cTo "2"]⟩] false 1 =
        .ok ["    menu:\n",
          "        \"OptionB\":\n", "            jump label_2\n",
          "        \"OptionA\":\n", "            jump label_3\n"] ∧
      lines_of_menu exConv [⟨"p2", "S", "", some [cTo "2", cTo "3"]⟩] false 1 =
        .ok ["    menu:\n",
          "        \"OptionB\":\n", "            jump label_2\n",
          "        \"OptionA\":\n", "            jump label_3\n"]) ∧
    (lines_of_menu exConv [⟨"p4", "S", "", some [cTo "9", cTo "8"]⟩] false 1 =
        .ok ["    menu:\n",
          "        \"OptionY\":\n", "            jump label_9\n",
          "        \"OptionX\":\n", "            jump label_8\n"] ∧
      lines_of_menu exConv [⟨"p4", "S", "", some [cTo "8", cTo "9"]⟩] false 1 =
        .ok ["    menu:\n",
          "        \"OptionX\":\n", "            jump label_8\n",
          "        \"OptionY\":\n", "            jump label_9\n"]) := by
  refine ⟨?_, ?_, ?_, ?_, ⟨rfl, rfl⟩, ⟨rfl, rfl⟩, ⟨rfl, rfl⟩⟩
  · intro m d h
    simp [get_choice_index, h]
  · intro m d h
    simp [get_choice_index, h]
  · intro m d sd n h hne hfind
    simp [get_choice_index, h, hne, hfind]
  · intro m d sd h hne hfind
    simp [get_choice_index, h, hne, hfind]

/-- Witness for C3 at a concrete input: a destination without the
stage-directions field gets the default constant plus its id. -/
theorem C3_menu_ordering_witness :
    get_choice_index exMod2 1904 = (pyIntBase0 exMod2.Properties.Id).map (fun v => 1904 + v) :=
  C3_menu_ordering.1 exMod2 1904 rfl

/-! ### Claim C7 (menu option label) -/

/-- C7: the option label is the destinations menu text if non-empty, else the
connections label if non-empty, else the destinations body text; and when
all three are empty, menu emission raises the fatal `InvalidArticy` error. -/
theorem C7_choice_text :
    (∀ (m : Model) (conn : Connection) (mt : String),
      m.Properties.MenuText = some mt → mt ≠ "" → get_choice_text m conn = mt) ∧
    (∀ (m : Model) (conn : Connection),
      (m.Properties.MenuText = none ∨ m.Properties.MenuText = some "") →
      conn.Label ≠ "" → get_choice_text m conn = conn.Label) ∧
    (∀ (m : Model) (conn : Connection),
      (m.Properties.MenuText = none ∨ m.Properties.MenuText = some "") →
      conn.Label = "" → get_choice_text m conn = m.Properties.Text) ∧
    lines_of_menu exConv [⟨"p3", "S", "", some [⟨"7", "i7", ""⟩]⟩] false 1 =
      .error "Could not get choice text for connection with target model 7" := by
  refine ⟨?_, ?_, ?_, rfl⟩
  · intro m conn mt h hne
    simp [get_choice_text, h, hne]
  · intro m conn h hne
    rcases h with h | h <;> simp [get_choice_text, h, hne]
  · intro m conn h hl
    rcases h with h | h <;> simp [get_choice_text, h, hl]

/-- Witness for C7 at a concrete input: a non-empty menu text wins. -/
theorem C7_choice_text_witness :
    get_choice_text exMod11 (cTo "11") = "Option1" :=
  C7_choice_text.1 exMod11 (cTo "11") "Option1" rfl (by decide)

/-! ### Claim C10 (stage-direction lookup) -/

/-- C10 counterexample: the code strips each comma segment before removing
spaces, so a segment with a leading tab matches the query even though the
claims predicate (remove space characters only) does not. -/
theorem C10_counterexample :
    has_stage_direction exTabSD "markdown=True" = true ∧
      spec_stage_direction_match "\tmarkdown=True" "markdown=True" = false := by
  refine ⟨by decide, by decide⟩

/-- C10: corrected.  `has_stage_direction` is true exactly when some
comma-separated segment of the stage-directions field, first trimmed of
surrounding whitespace and then with its space characters removed, equals
the queried directive (segments that trim to the empty string never match);
it is false, without raising, when the property is absent; and
`markdown = True` matches the query `markdown=True`. -/
theorem C10_stage_direction :
    (∀ (m : Model) (attr : String),
      has_stage_direction m attr = true ↔
        ∃ sd, m.Properties.StageDirections = some sd ∧
          ∃ seg ∈ splitChar ',' sd.data, stripL seg ≠ [] ∧
            String.mk (pyReplaceL " " "" (stripL seg)) = attr) ∧
    (∀ (m : Model) (attr : String), m.Properties.StageDirections = none →
      has_stage_direction m attr = false) ∧
    has_stage_direction exSpacedSD "markdown=True" = true := by
  refine ⟨?_, ?_, by decide⟩
  · intro m attr
    cases hsd : m.Properties.StageDirections with
    | none => simp [has_stage_direction, hsd]
    | some sd =>
      simp only [has_stage_direction, hsd, List.any_eq_true, beq_iff_eq,
        string_to_list, List.mem_filter, List.mem_map, Option.some.injEq, ne_eq,
        decide_eq_true_eq]
      constructor
      · rintro ⟨d, ⟨⟨seg, hseg, rfl⟩, hne⟩, hdeq⟩
        refine ⟨sd, rfl, seg, hseg, fun hnil => hne ?_, hdeq⟩
        rw [hnil]
      · rintro ⟨sd2, hsd2, seg, hseg, hne, heq⟩
        subst hsd2
        refine ⟨String.mk (stripL seg), ⟨⟨seg, hseg, rfl⟩, fun hmk => hne ?_⟩, heq⟩
        have hd := congrArg String.data hmk
        simpa using hd
  · intro m attr h
    simp [has_stage_direction, h]

/-- Witness for C10 at a concrete input: a model without the stage-directions
property yields false. -/
theorem C10_stage_direction_witness :
    has_stage_direction exMod2 "markdown=True" = false :=
  C10_stage_direction.2.1 exMod2 "markdown=True" rfl

/-! ### Claim C8 (character name allocation)

The only non-trivial ingredient is that the decimal rendering of a natural
number is injective, proved by a round trip through `decVal`. -/

theorem toDigitsCore_acc (b : Nat) :
    ∀ (f n : Nat) (l : List Char),
      Nat.toDigitsCore b f n l = Nat.toDigitsCore b f n [] ++ l := by
  intro f
  induction f with
  | zero => intro n l; rfl
  | succ f ih =>
    intro n l
    simp only [Nat.toDigitsCore]
    by_cases h : n / b = 0
    · simp [h]
    · simp only [h, if_false]
      rw [ih (n / b) (Nat.digitChar (n % b) :: l), ih (n / b) [Nat.digitChar (n % b)]]
      simp

theorem decVal_append_digit (l : List Char) (c : Char) :
    decVal (l ++ [c]) = 10 * decVal l + (c.toNat - 48) := by
  simp [decVal, List.foldl_append]

theorem digitChar_toNat (m : Nat) (h : m < 10) : (Nat.digitChar m).toNat - 48 = m := by
  have hall : ∀ k, k < 10 → (Nat.digitChar k).toNat - 48 = k := by decide
  exact hall m h

theorem decVal_toDigitsCore :
    ∀ (f n : Nat), n < f → decVal (Nat.toDigitsCore 10 f n []) = n := by
  intro f
  induction f with
  | zero => intro n h; exact absurd h (Nat.not_lt_zero n)
  | succ f ih =>
    intro n h
    simp only [Nat.toDigitsCore]
    by_cases h0 : n / 10 = 0
    · simp only [h0, if_true]
      have h1 : decVal [Nat.digitChar (n % 10)] = (Nat.digitChar (n % 10)).toNat - 48 := by
        simp [decVal]
      rw [h1, digitChar_toNat (n % 10) (Nat.mod_lt n (by omega))]
      omega
    · simp only [h0, if_false]
      rw [toDigitsCore_acc 10 f (n / 10) [Nat.digitChar (n % 10)], decVal_append_digit,
        ih (n / 10) (by omega), digitChar_toNat (n % 10) (Nat.mod_lt n (by omega))]
      omega

theorem natRepr_decVal (n : Nat) : decVal (Nat.repr n).data = n := by
  have h : (Nat.repr n).data = Nat.toDigitsCore 10 (n + 1) n [] := rfl
  rw [h]
  exact decVal_toDigitsCore (n + 1) n (Nat.lt_succ_self n)

theorem natRepr_inj : Function.Injective Nat.repr := by
  intro a b h
  have hd := congrArg String.data h
  have ha := natRepr_decVal a
  have hb := natRepr_decVal b
  rw [hd] at ha
  omega

theorem data_append (a b : String) : (a ++ b).data = a.data ++ b.data := rfl

theorem freeName_candidate_inj (name : String) :
    Function.Injective (fun k : Nat => name ++ "_" ++ Nat.repr k) := by
  intro a b h
  apply natRepr_inj
  have hd := congrArg String.data h
  simp only [data_append] at hd
  have hcancel := List.append_cancel_left hd
  exact String.ext hcancel

theorem freeName_exists (name : String) (vals : List String) :
    ∃ j, 1 ≤ j ∧ j ≤ vals.length + 1 ∧ (name ++ "_" ++ Nat.repr j) ∉ vals := by
  by_contra hcon
  push_neg at hcon
  have hsub : (Finset.Icc 1 (vals.length + 1)).image
      (fun k => name ++ "_" ++ Nat.repr k) ⊆ vals.toFinset := by
    intro x hx
    rw [Finset.mem_image] at hx
    obtain ⟨j, hj, rfl⟩ := hx
    rw [Finset.mem_Icc] at hj
    rw [List.mem_toFinset]
    exact hcon j hj.1 hj.2
  have hcard := Finset.card_le_card hsub
  rw [Finset.card_image_of_injective _ (freeName_candidate_inj name), Nat.card_Icc] at hcard
  have hlen := List.toFinset_card_le vals
  omega

theorem freeNameCore_spec (name : String) (vals : List String) :
    ∀ (fuel count : Nat),
      (∃ j, count ≤ j ∧ j < count + fuel + 1 ∧ (name ++ "_" ++ Nat.repr j) ∉ vals) →
      ∃ c, freeNameCore name vals count fuel = name ++ "_" ++ Nat.repr c ∧
        count ≤ c ∧ (name ++ "_" ++ Nat.repr c) ∉ vals ∧
        ∀ j, count ≤ j → j < c → (name ++ "_" ++ Nat.repr j) ∈ vals := by
  intro fuel
  induction fuel with
  | zero =>
    intro count h
    obtain ⟨j, hj1, hj2, hj3⟩ := h
    have hjc : j = count := by omega
    subst hjc
    exact ⟨j, rfl, le_refl j, hj3,
      fun k hk1 hk2 => absurd (lt_of_le_of_lt hk1 hk2) (lt_irrefl j)⟩
  | succ fuel ih =>
    intro count h
    by_cases hc : (name ++ "_" ++ Nat.repr count) ∈ vals
    · obtain ⟨j, hj1, hj2, hj3⟩ := h
      have hj1b : count + 1 ≤ j := by
        rcases Nat.eq_or_lt_of_le hj1 with rfl | hlt
        · exact absurd hc hj3
        · omega
      obtain ⟨c, hc1, hc2, hc3, hc4⟩ := ih (count + 1) ⟨j, hj1b, by omega, hj3⟩
      refine ⟨c, ?_, by omega, hc3, ?_⟩
      · simp only [freeNameCore, hc, if_true]
        exact hc1
      · intro k hk1 hk2
        rcases Nat.eq_or_lt_of_le hk1 with rfl | hlt
        · exact hc
        · exact hc4 k hlt hk2
    · refine ⟨count, ?_, le_refl count, hc,
        fun k hk1 hk2 => absurd (lt_of_le_of_lt hk1 hk2) (lt_irrefl count)⟩
      simp [freeNameCore, hc]

/-- C8: character name allocation never fails: an unmapped name is returned
unchanged; the returned name is never among the existing map values; and on
a collision the result is the name with the first free numeric suffix
(counted up from 1), every smaller suffix being taken. -/
theorem C8_free_character_name :
    ∀ (character_name : String) (m : List (String × String)),
      (character_name ∉ m.map Prod.snd →
        get_free_character_name character_name m = character_name) ∧
      get_free_character_name character_name m ∉ m.map Prod.snd ∧
      (character_name ∈ m.map Prod.snd →
        ∃ c, 1 ≤ c ∧
          get_free_character_name character_name m =
            character_name ++ "_" ++ Nat.repr c ∧
          (character_name ++ "_" ++ Nat.repr c) ∉ m.map Prod.snd ∧
          ∀ j, 1 ≤ j → j < c → (character_name ++ "_" ++ Nat.repr j) ∈ m.map Prod.snd) := by
  intro name m
  by_cases hmem : name ∈ m.map Prod.snd
  · obtain ⟨j, hj1, hj2, hj3⟩ := freeName_exists name (m.map Prod.snd)
    obtain ⟨c, hc1, hc2, hc3, hc4⟩ :=
      freeNameCore_spec name (m.map Prod.snd) ((m.map Prod.snd).length + 1) 1
        ⟨j, hj1, by omega, hj3⟩
    have hval : get_free_character_name name m =
        freeNameCore name (m.map Prod.snd) 1 ((m.map Prod.snd).length + 1) := by
      simp [get_free_character_name, hmem]
    refine ⟨fun h => absurd hmem h, ?_, fun _ => ⟨c, hc2, ?_, hc3, hc4⟩⟩
    · rw [hval, hc1]
      exact hc3
    · rw [hval, hc1]
  · refine ⟨fun _ => ?_, ?_, fun h => absurd h hmem⟩
    · simp [get_free_character_name, hmem]
    · have hval : get_free_character_name name m = name := by
        simp [get_free_character_name, hmem]
      rw [hval]
      exact hmem

/-- Witness for C8 at a concrete input: a fresh name is returned unchanged. -/
theorem C8_free_character_name_witness :
    get_free_character_name "alice" [("e1", "bob")] = "alice" ∧
      get_free_character_name "alice" [("e1", "bob")] ∉ ["bob"] :=
  ⟨(C8_free_character_name "alice" [("e1", "bob")]).1 (by decide),
    (C8_free_character_name "alice" [("e1", "bob")]).2.1⟩

/-! ### Claim C9 (bracket preservation in markdown styling)

The splitter of `add_renpy_text_style_commands` is shown to decompose the
input into alternating outside parts and bracketed parts whose interleaving
reconstructs the input; the assembly loop then rewrites exactly the outside
parts. -/

theorem isPre_append_self (pat rest : List Char) : isPre pat (pat ++ rest) = true := by
  induction pat with
  | nil => rfl
  | cons a as ih => simp [isPre, ih]

theorem isPre_decomp (pat : List Char) :
    ∀ l : List Char, isPre pat l = true → l = pat ++ l.drop pat.length := by
  induction pat with
  | nil => intro l _; simp
  | cons a as ih =>
    intro l h
    cases l with
    | nil => simp [isPre] at h
    | cons b bs =>
      simp only [isPre, Bool.and_eq_true, decide_eq_true_eq] at h
      obtain ⟨rfl, h2⟩ := h
      simp only [List.length_cons, List.drop_succ_cons, List.cons_append]
      exact congrArg (a :: ·) (ih bs h2)

theorem pyFindAux_spec (pat : List Char) :
    ∀ (s : List Char) (i : Nat), pyFindAux pat s = some i →
      isPre pat (s.drop i) = true := by
  intro s
  induction s with
  | nil =>
    intro i h
    by_cases hp : pat.isEmpty
    · simp only [pyFindAux, hp, if_true, Option.some.injEq] at h
      subst h
      cases pat with
      | nil => rfl
      | cons a as => simp [List.isEmpty] at hp
    · simp [pyFindAux, hp] at h
  | cons c rest ih =>
    intro i h
    by_cases hp : isPre pat (c :: rest) = true
    · simp only [pyFindAux, hp, if_true, Option.some.injEq] at h
      subst h
      exact hp
    · simp only [pyFindAux, hp, Bool.false_eq_true, if_false] at h
      obtain ⟨j, hj, rfl⟩ := Option.map_eq_some'.mp h
      rw [List.drop_succ_cons]
      exact ih j hj

theorem pyFindAux_complete (pat : List Char) :
    ∀ (s : List Char) (i : Nat), isPre pat (s.drop i) = true →
      (pyFindAux pat s).isSome = true := by
  intro s
  induction s with
  | nil =>
    intro i h
    rw [List.drop_nil] at h
    cases pat with
    | nil => simp [pyFindAux, List.isEmpty]
    | cons a as => simp [isPre] at h
  | cons c rest ih =>
    intro i h
    by_cases hp : isPre pat (c :: rest) = true
    · simp [pyFindAux, hp]
    · cases i with
      | zero => rw [List.drop_zero] at h; exact absurd h hp
      | succ j =>
        rw [List.drop_succ_cons] at h
        have hs := ih j h
        simp [pyFindAux, hp, hs]

theorem pyFind_spec (s pat : List Char) (start i : Nat)
    (h : pyFind s pat start = some i) :
    start ≤ i ∧ isPre pat (s.drop i) = true := by
  unfold pyFind at h
  obtain ⟨j, hj, rfl⟩ := Option.map_eq_some'.mp h
  constructor
  · omega
  · have hps := pyFindAux_spec pat (s.drop start) j hj
    rw [List.drop_drop] at hps
    rwa [Nat.add_comm start j] at hps

theorem pyFind_zero_complete (s pat : List Char) (i : Nat)
    (h : isPre pat (s.drop i) = true) : (pyFind s pat 0).isSome = true := by
  unfold pyFind
  rw [List.drop_zero]
  simp [pyFindAux_complete pat s i h]

theorem decomp_of_isPre_drop (s pat : List Char) (i : Nat)
    (h : isPre pat (s.drop i) = true) :
    s.take i ++ pat ++ s.drop (i + pat.length) = s := by
  conv_rhs => rw [← List.take_append_drop i s, isPre_decomp pat (s.drop i) h]
  rw [List.drop_drop]
  simp [List.append_assoc, Nat.add_comm]

theorem gsb_occurs (rem substr : List Char)
    (h : get_substr_between_chars rem ['['] [']'] = some substr) :
    ∃ idx, pyFind rem ('[' :: (substr ++ [']'])) 0 = some idx := by
  unfold get_substr_between_chars at h
  split at h
  · exact absurd h (by simp)
  · rename_i il hfl
    split at h
    · exact absurd h (by simp)
    · rename_i ir hfr
      simp only [Option.some.injEq] at h
      have hsub : substr = pySlice rem (il + 1) ir := by
        rw [← h]
        rfl
      obtain ⟨-, hil⟩ := pyFind_spec rem ['['] 0 il hfl
      obtain ⟨hstart, hir⟩ := pyFind_spec rem [']'] (il + 1) ir (by simpa using hfr)
      -- rem.drop il starts with the bracket string
      have hopen : rem.drop il = '[' :: rem.drop (il + 1) := by
        have hd := isPre_decomp ['['] (rem.drop il) hil
        rw [List.drop_drop] at hd
        simpa [Nat.add_comm] using hd
      have hmid : rem.drop (il + 1) = substr ++ rem.drop ir := by
        conv_lhs => rw [← List.take_append_drop (ir - (il + 1)) (rem.drop (il + 1))]
        rw [List.drop_drop]
        have hidx : il + 1 + (ir - (il + 1)) = ir := by omega
        rw [hidx, hsub]
        rfl
      have hclose : rem.drop ir = ']' :: (rem.drop ir).drop 1 := by
        have hd := isPre_decomp [']'] (rem.drop ir) hir
        simpa using hd
      have hbr : rem.drop il = ('[' :: (substr ++ [']'])) ++ (rem.drop ir).drop 1 := by
        rw [hopen, hmid, hclose]
        simp
      have hpre : isPre ('[' :: (substr ++ [']'])) (rem.drop il) = true := by
        rw [hbr]
        exact isPre_append_self _ _
      have hsome := pyFind_zero_complete rem ('[' :: (substr ++ [']'])) il hpre
      exact Option.isSome_iff_exists.mp hsome

theorem splitBracketsCore_succ (fuel : Nat) (rem : List Char) :
    splitBracketsCore (fuel + 1) rem =
      if rem = [] then ([], [])
      else
        match get_substr_between_chars rem ['['] [']'] with
        | none => ([rem], [])
        | some substr =>
          match pyFind rem ('[' :: (substr ++ [']'])) 0 with
          | none => ([rem], [])
          | some substr_index =>
            if rem.drop (substr_index + ('[' :: (substr ++ [']'])).length) = [] then
              ([rem.take substr_index, []], ['[' :: (substr ++ [']'])])
            else
              (rem.take substr_index ::
                (splitBracketsCore fuel
                  (rem.drop (substr_index + ('[' :: (substr ++ [']'])).length))).1,
               ('[' :: (substr ++ [']'])) ::
                (splitBracketsCore fuel
                  (rem.drop (substr_index + ('[' :: (substr ++ [']'])).length))).2) := rfl

theorem splitBracketsCore_spec :
    ∀ (fuel : Nat) (rem : List Char), rem ≠ [] → rem.length ≤ fuel →
      (splitBracketsCore fuel rem).1.length = (splitBracketsCore fuel rem).2.length + 1 ∧
      joinIL (splitBracketsCore fuel rem).1 (splitBracketsCore fuel rem).2 = rem ∧
      ∀ u ∈ (splitBracketsCore fuel rem).2, ∃ mid, u = '[' :: (mid ++ [']']) := by
  intro fuel
  induction fuel with
  | zero =>
    intro rem h hl
    exact absurd (List.eq_nil_of_length_eq_zero (Nat.le_zero.mp hl)) h
  | succ fuel ih =>
    intro rem hrem hlen
    cases hg : get_substr_between_chars rem ['['] [']'] with
    | none =>
      have hres : splitBracketsCore (fuel + 1) rem = ([rem], []) := by
        rw [splitBracketsCore_succ, if_neg hrem]
        simp only [hg]
      rw [hres]
      exact ⟨rfl, rfl, by simp⟩
    | some substr =>
      obtain ⟨idx, hidx⟩ := gsb_occurs rem substr hg
      obtain ⟨-, hpre⟩ := pyFind_spec rem ('[' :: (substr ++ [']'])) 0 idx hidx
      have hdec := decomp_of_isPre_drop rem ('[' :: (substr ++ [']'])) idx hpre
      by_cases hrest : rem.drop (idx + ('[' :: (substr ++ [']'])).length) = []
      · have hres : splitBracketsCore (fuel + 1) rem =
            ([rem.take idx, []], ['[' :: (substr ++ [']'])]) := by
          rw [splitBracketsCore_succ, if_neg hrem]
          simp only [hg, hidx]
          rw [if_pos hrest]
        rw [hres]
        refine ⟨rfl, ?_, ?_⟩
        · show rem.take idx ++ ('[' :: (substr ++ [']'])) ++ joinIL [[]] [] = rem
          rw [show joinIL [[]] [] = [] from rfl]
          rw [hrest] at hdec
          simpa using hdec
        · intro u hu
          simp only [List.mem_singleton] at hu
          exact ⟨substr, hu⟩
      · have hbl : ('[' :: (substr ++ [']'])).length = substr.length + 2 := by
          simp
        have hrlen : (rem.drop (idx + ('[' :: (substr ++ [']'])).length)).length ≤ fuel := by
          have h1 := congrArg List.length hdec
          simp only [List.length_append] at h1
          omega
        obtain ⟨ih1, ih2, ih3⟩ := ih _ hrest hrlen
        have hres : splitBracketsCore (fuel + 1) rem =
            (rem.take idx ::
              (splitBracketsCore fuel (rem.drop (idx + ('[' :: (substr ++ [']'])).length))).1,
             ('[' :: (substr ++ [']'])) ::
              (splitBracketsCore fuel (rem.drop (idx + ('[' :: (substr ++ [']'])).length))).2) := by
          rw [splitBracketsCore_succ, if_neg hrem]
          simp only [hg, hidx]
          rw [if_neg hrest]
        rw [hres]
        refine ⟨by simpa using ih1, ?_, ?_⟩
        · show rem.take idx ++ ('[' :: (substr ++ [']'])) ++ joinIL _ _ = rem
          rw [ih2]
          exact hdec
        · intro u hu
          rcases List.mem_cons.mp hu with hu | hu
          · exact ⟨substr, hu⟩
          · exact ih3 u hu

theorem assembleParts_of_len :
    ∀ (cs us : List (List Char)), cs.length = us.length + 1 →
      assembleParts cs us =
        some (joinIL (cs.map text_style_markdown_to_renpy_chars) us) := by
  intro cs
  induction cs with
  | nil => intro us h; simp at h
  | cons c cs' ih =>
    intro us h
    cases cs' with
    | nil =>
      cases us with
      | nil => rfl
      | cons u us' => simp at h
    | cons c2 cs'' =>
      cases us with
      | nil => simp at h
      | cons u us' =>
        have h2 : (c2 :: cs'').length = us'.length + 1 := by simpa using h
        have hstep : assembleParts (c :: c2 :: cs'') (u :: us') =
            (assembleParts (c2 :: cs'') us').map
              (fun t => text_style_markdown_to_renpy_chars c ++ u ++ t) := rfl
        rw [hstep, ih us' h2]
        rfl

/-- C9: corrected.  For every non-empty input, the splitter decomposes the
text into alternating outside parts and bracket-delimited parts whose
interleaving reconstructs the text; the output exists and equals the same
interleaving with markdown rewriting applied to the outside parts only, each
bracketed part appearing character for character unchanged.  (On the empty
input the function does not produce an output at all; see the
counterexample.) -/
theorem C9_bracket_preservation :
    ∀ text : String, text ≠ "" →
      ∃ cs us,
        splitBracketsCore text.data.length text.data = (cs, us) ∧
        cs.length = us.length + 1 ∧
        joinIL cs us = text.data ∧
        add_renpy_text_style_commands text =
          some (String.mk (joinIL (cs.map text_style_markdown_to_renpy_chars) us)) ∧
        ∀ u ∈ us, ∃ mid, u = '[' :: (mid ++ [']']) := by
  intro text ht
  have hdata : text.data ≠ [] := by
    intro h
    apply ht
    exact String.ext h
  obtain ⟨h1, h2, h3⟩ :=
    splitBracketsCore_spec text.data.length text.data hdata (le_refl _)
  refine ⟨(splitBracketsCore text.data.length text.data).1,
    (splitBracketsCore text.data.length text.data).2, rfl, h1, h2, ?_, h3⟩
  show (assembleParts (splitBracketsCore text.data.length text.data).1
      (splitBracketsCore text.data.length text.data).2).map String.mk = _
  rw [assembleParts_of_len _ _ h1]
  rfl

/-- Witness for C9 at a concrete non-empty input. -/
theorem C9_bracket_preservation_witness :
    ∃ cs us,
      splitBracketsCore ("a[b]c" : String).data.length ("a[b]c" : String).data = (cs, us) ∧
      cs.length = us.length + 1 ∧
      joinIL cs us = ("a[b]c" : String).data ∧
      add_renpy_text_style_commands "a[b]c" =
        some (String.mk (joinIL (cs.map text_style_markdown_to_renpy_chars) us)) ∧
      ∀ u ∈ us, ∃ mid, u = '[' :: (mid ++ [']']) :=
  C9_bracket_preservation "a[b]c" (by decide)

/-- C9 counterexample: on the empty input the assembly loop indexes an empty
list, so the function raises `IndexError` and produces no output, while the
claim promises an output for every text. -/
theorem C9_counterexample : add_renpy_text_style_commands "" = none := rfl

end ArticyRenpy
